import Mathlib

/-!
Verification of the lockfile codec, registry index reader, source provider and
package fetcher of the vba-blocks package manager, against its specification.

The TypeScript modules are shallowly embedded: pure computations become Lean
functions, effectful operations (file system, git, network) become explicit
parameters describing the outcomes of the external primitives together with a
trace of the actions performed, and thrown exceptions become `Except` values.
The external TOML codec is treated as a faithful bijection, so serialization
and deserialization are modelled on the structured value that the codec
encodes and parses (`LockfileToml`).
-/

set_option autoImplicit false

namespace VbaBlocks

/-- Decidable equality of outcomes, used to evaluate the embedded operations
at concrete inputs. -/
instance {ε α : Type} [DecidableEq ε] [DecidableEq α] : DecidableEq (Except ε α) := fun x y =>
  match x, y with
  | .error a, .error b =>
    match decEq a b with
    | isTrue h => isTrue (h ▸ rfl)
    | isFalse h => isFalse fun hc => h (Except.error.inj hc)
  | .ok a, .ok b =>
    match decEq a b with
    | isTrue h => isTrue (h ▸ rfl)
    | isFalse h => isFalse fun hc => h (Except.ok.inj hc)
  | .error _, .ok _ => isFalse fun hc => Except.noConfusion hc
  | .ok _, .error _ => isFalse fun hc => Except.noConfusion hc

/-- A dependency requirement or a hydrated lockfile dependency: name, version
constraint (or pinned version), and source descriptor. -/
structure Dependency where
  name : String
  version : String
  source : String
deriving DecidableEq, Repr

/-- A resolved package node: identity, name, concrete version, source string
and its own dependencies. -/
structure Registration where
  id : String
  name : String
  version : String
  source : String
  dependencies : List Dependency
deriving DecidableEq, Repr

/-- The complete set of Registrations needed to satisfy a workspace. -/
abbrev DependencyGraph := List Registration

/-- The dependency-relevant projection of a manifest. -/
structure Snapshot where
  name : String
  version : String
  dependencies : List Dependency
deriving DecidableEq, Repr

/-- One root Snapshot plus member Snapshots. -/
structure Workspace where
  root : Snapshot
  members : List Snapshot
deriving DecidableEq, Repr

/-- The workspace part of a lockfile. -/
structure LockfileWorkspace where
  root : Snapshot
  members : List Snapshot
deriving DecidableEq, Repr

/-- The full persisted resolution result. -/
structure Lockfile where
  workspace : LockfileWorkspace
  packages : DependencyGraph
deriving DecidableEq, Repr

/-- Splits a character list at every occurrence of the separator, mirroring
the JavaScript String.split semantics on a single-character separator. -/
def splitOnChar (sep : Char) : List Char → List (List Char)
  | [] => [[]]
  | c :: cs =>
    if c == sep then [] :: splitOnChar sep cs
    else
      match splitOnChar sep cs with
      | [] => [[c]]
      | part :: parts => (c :: part) :: parts

/-- Interprets a character list as a decimal number, as a strict parse. -/
def digitsToNat (l : List Char) : Option Nat :=
  if l.isEmpty then none
  else if l.all Char.isDigit then
    some (l.foldl (fun n c => n * 10 + (c.toNat - 48)) 0)
  else none

/-- Parses a version string of the shape major.minor.patch. -/
def parseVersion (s : String) : Option (Nat × Nat × Nat) :=
  match (splitOnChar '.' s.data).map digitsToNat with
  | [some a, some b, some c] => some (a, b, c)
  | _ => none

/-- Lexicographic comparison of parsed versions. -/
def versionLe (v w : Nat × Nat × Nat) : Bool :=
  Nat.blt v.1 w.1 ||
    (v.1 == w.1 &&
      (Nat.blt v.2.1 w.2.1 || (v.2.1 == w.2.1 && Nat.ble v.2.2 w.2.2)))

/-- Modelled from the spec: the `satisfies` check of src/manifest/dependency
(not under src/). Per the spec, the constraint of the current dependency
judges the pinned version of the locked dependency; constraints are semver
ranges, modelled here as an exact version or a caret range. -/
def satisfies (current locked : Dependency) : Bool :=
  match current.version.data with
  | '^' :: range =>
    match parseVersion (String.mk range), parseVersion locked.version with
    | some v, some w => v.1 == w.1 && versionLe v w
    | _, _ => false
  | _ =>
    match parseVersion current.version, parseVersion locked.version with
    | some v, some w => v == w
    | _, _ => false

/-- Embeds the byName object of compareDependencies: a JavaScript object
written by assignment in a forEach, then read at one key; a later assignment
to the same key overwrites an earlier one, so the lookup is last-wins. -/
def lookupByName (deps : List Dependency) (n : String) : Option Dependency :=
  deps.foldl (fun acc d => if d.name == n then some d else acc) none

/-- Embeds compareDependencies of the lockfile module: equal dependency
counts, then every locked dependency must be found by name among the current
dependencies and be accepted by the constraint of that current dependency. -/
def compareDependencies (current locked : Snapshot) : Bool :=
  current.dependencies.length == locked.dependencies.length &&
    locked.dependencies.all fun dependency =>
      match lookupByName current.dependencies dependency.name with
      | none => false
      | some currentValue => satisfies currentValue dependency

/-- Embeds the byName object of isLockfileValid over workspace members. -/
def lookupMember (members : List Snapshot) (n : String) : Option Snapshot :=
  members.foldl (fun acc m => if m.name == n then some m else acc) none

/-- Embeds isLockfileValid of the lockfile module. -/
def isLockfileValid (lockfile : Lockfile) (workspace : Workspace) : Bool :=
  compareDependencies workspace.root lockfile.workspace.root &&
    (lockfile.workspace.members.length == workspace.members.length &&
      lockfile.workspace.members.all fun member =>
        match lookupMember workspace.members member.name with
        | none => false
        | some currentMember => compareDependencies currentMember member)

/-- The fatal conditions raised by the lockfile codec, one constructor per
assertion message of the source. -/
inductive LockError where
  | missingRoot
  | invalidPackage
  | invalidManifest
  | packageNotFound (id : String)
  | noRegistration
deriving DecidableEq, Repr

/-- The exact assertion message attached to each fatal condition. -/
def LockError.message : LockError → String
  | .missingRoot => "vba-block.lock is missing [root] field"
  | .invalidPackage => "Invalid package in lockfile"
  | .invalidManifest => "Invalid manifest in lockfile"
  | .packageNotFound id => "Package not found in lockfile, \"" ++ id ++ "\""
  | .noRegistration => "No package found for dependency"

/-- The structured value encoded to and parsed from the lockfile TOML text
for one snapshot: dependencies are id strings. -/
structure SnapshotToml where
  name : String
  version : String
  dependencies : List String
deriving DecidableEq, Repr

/-- The structured value encoded to and parsed from the lockfile TOML text
for one package entry. -/
structure PackageToml where
  name : String
  version : String
  source : String
  dependencies : List String
deriving DecidableEq, Repr

/-- The structured value of a whole lockfile file; a missing [root] table
parses to none, missing members or packages lists parse to the empty list
(the source defaults them with a disjunction). -/
structure LockfileToml where
  root : Option SnapshotToml
  members : List SnapshotToml
  packages : List PackageToml
deriving DecidableEq, Repr

/-- Embeds Array.prototype.map with a callback that may throw: elements are
processed left to right and the first thrown error aborts the whole map. -/
def mapOk {α β : Type} (f : α → Except LockError β) : List α → Except LockError (List β)
  | [] => .ok []
  | x :: xs =>
    match f x with
    | .error e => .error e
    | .ok y =>
      match mapOk f xs with
      | .error e => .error e
      | .ok ys => .ok (y :: ys)

/-- Modelled from the spec: getRegistrationId of src/sources/registration
(not under src/), fixed by the unit tests in the repository to produce
name@version. -/
def getRegistrationId (name version : String) : String :=
  name ++ "@" ++ version

/-- Modelled from the spec: toDependency of src/sources/registration (not
under src/): the lightweight Dependency stand-in capturing the name, version
and source of a package entry. -/
def toDependency (name version source : String) : Dependency :=
  { name := name, version := version, source := source }

/-- Modelled from the spec: getRegistration of src/resolve (not under src/):
matches by name first, then requires the candidate version to satisfy the
constraint of the dependency; zero or multiple acceptable matches is fatal,
so only a unique match is returned. -/
def getRegistration (packages : DependencyGraph) (dependency : Dependency) :
    Option Registration :=
  match packages.filter fun r =>
      r.name == dependency.name &&
        satisfies dependency (toDependency r.name r.version r.source) with
  | [registration] => some registration
  | _ => none

/-- Embeds toDependencyId of the lockfile module: renders the minimal triple
id of a dependency by looking up its Registration in the graph. -/
def toDependencyId (dependency : Dependency) (packages : DependencyGraph) :
    Except LockError String :=
  match getRegistration packages dependency with
  | none => .error .noRegistration
  | some registration =>
    .ok (dependency.name ++ " " ++ registration.version ++ " " ++ registration.source)

/-- Embeds prepareManifest of the lockfile module. -/
def prepareManifest (manifest : Snapshot) (packages : DependencyGraph) :
    Except LockError SnapshotToml :=
  match mapOk (fun d => toDependencyId d packages) manifest.dependencies with
  | .error e => .error e
  | .ok dependencies =>
    .ok { name := manifest.name, version := manifest.version, dependencies := dependencies }

/-- Embeds the package mapping inside toToml: flatten one Registration to
its persisted entry, rendering every dependency as an id string. -/
def preparePackage (packages : DependencyGraph) (registration : Registration) :
    Except LockError PackageToml :=
  match mapOk (fun d => toDependencyId d packages) registration.dependencies with
  | .error e => .error e
  | .ok dependencies =>
    .ok { name := registration.name, version := registration.version,
          source := registration.source, dependencies := dependencies }

/-- Embeds toToml of the lockfile module, up to the external TOML encoder:
the structured value handed to convertToToml. -/
def toToml (lockfile : Lockfile) : Except LockError LockfileToml :=
  match prepareManifest lockfile.workspace.root lockfile.packages with
  | .error e => .error e
  | .ok root =>
    match mapOk (fun m => prepareManifest m lockfile.packages) lockfile.workspace.members with
    | .error e => .error e
    | .ok members =>
      match mapOk (preparePackage lockfile.packages) lockfile.packages with
      | .error e => .error e
      | .ok packages => .ok { root := some root, members := members, packages := packages }

/-- The prefix of an id string before its first space, embedding the
JavaScript expression id.split(sep, 1)[0] with a space separator. -/
def firstWord (id : String) : String :=
  String.mk (id.data.takeWhile fun c => c != ' ')

/-- The name to Dependency map of the hydration pass, as an association
list written by Map.set. -/
abbrev DependencyByName := List (String × Dependency)

/-- Embeds Map.prototype.set: a later entry for a key shadows an earlier
one, which mapGet realizes by a last-wins fold. -/
def mapSet (m : DependencyByName) (k : String) (v : Dependency) : DependencyByName :=
  m ++ [(k, v)]

/-- Embeds Map.prototype.get over the entries written by mapSet. -/
def mapGet (m : DependencyByName) (k : String) : Option Dependency :=
  m.foldl (fun acc p => if p.1 == k then some p.2 else acc) none

/-- A package entry after pass 1 of hydration: validated fields plus the raw
dependency-id strings, before pass 2 substitutes Dependency values. -/
structure PackageSkeleton where
  id : String
  name : String
  version : String
  source : String
  dependencies : List String
deriving DecidableEq, Repr

/-- Embeds pass 1 of fromToml for one package entry: require name, version
and source to be truthy (the dependencies list is a list by construction of
the structured value), build the Registration skeleton. -/
def loadPackage (value : PackageToml) : Except LockError PackageSkeleton :=
  if value.name = "" ∨ value.version = "" ∨ value.source = "" then
    .error .invalidPackage
  else
    .ok { id := getRegistrationId value.name value.version, name := value.name,
          version := value.version, source := value.source,
          dependencies := value.dependencies }

/-- Embeds the byName writes of pass 1: one Map.set per package entry, in
order. -/
def buildByName (skeletons : List PackageSkeleton) : DependencyByName :=
  skeletons.foldl (fun m r => mapSet m r.name (toDependency r.name r.version r.source)) []

/-- Embeds getDependency of the lockfile module: resolve an id string by the
name before its first space, fatally failing when the name is not mapped. -/
def getDependency (id : String) (byName : DependencyByName) : Except LockError Dependency :=
  match mapGet byName (firstWord id) with
  | none => .error (.packageNotFound id)
  | some dependency => .ok dependency

/-- Embeds pass 2 of fromToml for one package: substitute every raw
dependency id by the mapped Dependency. -/
def hydratePackage (byName : DependencyByName) (skeleton : PackageSkeleton) :
    Except LockError Registration :=
  match mapOk (fun id => getDependency id byName) skeleton.dependencies with
  | .error e => .error e
  | .ok dependencies =>
    .ok { id := skeleton.id, name := skeleton.name, version := skeleton.version,
          source := skeleton.source, dependencies := dependencies }

/-- Embeds toManifest of the lockfile module: require name and version to be
truthy, then hydrate the dependency ids. -/
def toManifest (value : SnapshotToml) (byName : DependencyByName) :
    Except LockError Snapshot :=
  if value.name = "" ∨ value.version = "" then
    .error .invalidManifest
  else
    match mapOk (fun id => getDependency id byName) value.dependencies with
    | .error e => .error e
    | .ok dependencies =>
      .ok { name := value.name, version := value.version, dependencies := dependencies }

/-- Embeds fromToml of the lockfile module, after the external TOML parser:
missing root is fatal; pass 1 loads package skeletons and the name map, pass
2 hydrates package dependencies, then the root and member snapshots. -/
def fromToml (parsed : LockfileToml) : Except LockError Lockfile :=
  match parsed.root with
  | none => .error .missingRoot
  | some rootToml =>
    match mapOk loadPackage parsed.packages with
    | .error e => .error e
    | .ok skeletons =>
      match mapOk (hydratePackage (buildByName skeletons)) skeletons with
      | .error e => .error e
      | .ok packages =>
        match toManifest rootToml (buildByName skeletons) with
        | .error e => .error e
        | .ok root =>
          match mapOk (fun m => toManifest m (buildByName skeletons)) parsed.members with
          | .error e => .error e
          | .ok members =>
            .ok { workspace := { root := root, members := members }, packages := packages }

/-- Embeds readLockfile: the file-existence check and the try/catch that
turns every read, parse or hydration failure into an absent result. The
outcome of reading and parsing the file text is a parameter: an error covers
both an unreadable file and text the TOML parser rejects. -/
def readLockfile (fileExists : Bool) (readResult : Except String LockfileToml) :
    Option Lockfile :=
  if fileExists then
    match readResult with
    | .error _ => none
    | .ok parsed =>
      match fromToml parsed with
      | .ok lockfile => some lockfile
      | .error _ => none
  else none

/-- The completeness hypothesis of the round-trip property: every dependency
of the root, of every member and of every package resolves in the graph. -/
def completeGraph (lockfile : Lockfile) : Bool :=
  (lockfile.workspace.root.dependencies.all fun d =>
      (getRegistration lockfile.packages d).isSome) &&
    (lockfile.workspace.members.all fun m =>
      m.dependencies.all fun d => (getRegistration lockfile.packages d).isSome) &&
    (lockfile.packages.all fun r =>
      r.dependencies.all fun d => (getRegistration lockfile.packages d).isSome)

/-- Holds when a string contains no space character. -/
def noSpace (s : String) : Bool :=
  s.data.all fun c => c != ' '

/-- A dependency record of the registry index, one element of the deps field
of an index line. -/
structure IndexDep where
  name : String
  req : String
  features : List String
  optional : Bool
  default_features : Bool
deriving DecidableEq, Repr

/-- One version record of the registry index file. -/
structure IndexRecord where
  name : String
  vers : String
  deps : List IndexDep
  cksum : String
  features : List String
  yanked : Bool
deriving DecidableEq, Repr

/-- One line of an index file as seen by the reader: either text that the
JSON parser rejects, or a parsed record. -/
inductive IndexLine where
  | malformed (raw : String)
  | record (r : IndexRecord)
deriving DecidableEq, Repr

/-- Embeds JSON.parse applied to one line: none models a thrown syntax
error. -/
def parseLine : IndexLine → Option IndexRecord
  | .malformed _ => none
  | .record r => some r

/-- A registry dependency of a resolved candidate, mapped field for field
from an index deps record. -/
structure RegistryDependency where
  name : String
  version : String
  features : List String
  optional : Bool
  default_features : Bool
deriving DecidableEq, Repr

/-- A candidate registration produced by the index reader. -/
structure IndexRegistration where
  name : String
  version : String
  dependencies : List RegistryDependency
  features : List String
  source : String
deriving DecidableEq, Repr

/-- Embeds the per-record mapping of resolve: dependencies field for field
from deps, source from the fixed registry remote plus the record checksum. -/
def toIndexRegistration (r : IndexRecord) : IndexRegistration :=
  { name := r.name, version := r.vers,
    dependencies := r.deps.map fun dep =>
      { name := dep.name, version := dep.req, features := dep.features,
        optional := dep.optional, default_features := dep.default_features },
    features := r.features,
    source := "registry+https://github.com/vba-blocks/registry#" ++ r.cksum }

/-- Embeds resolve of the sources/registry module over the lines of the
sharded index file: lines are processed in order, a line the JSON parser
rejects aborts the whole read, a yanked record is skipped, and every other
record contributes a candidate registration in line order. -/
def resolveLines : List IndexLine → Except String (List IndexRegistration)
  | [] => .ok []
  | line :: rest =>
    match parseLine line with
    | none => .error "Unexpected token in JSON"
    | some r =>
      if r.yanked then resolveLines rest
      else
        match resolveLines rest with
        | .error e => .error e
        | .ok registrations => .ok (toIndexRegistration r :: registrations)

/-- Embeds path.join over already-normalized segments. -/
def joinPath : List String → String
  | [] => ""
  | [part] => part
  | part :: rest => part ++ "/" ++ joinPath rest

/-- A segment handed to path.join as the source builds it: the shard parts
for short names hold JavaScript numbers, the other segments strings. -/
inductive PathSegment where
  | str (s : String)
  | num (n : Nat)
deriving DecidableEq, Repr

/-- The error thrown by Node path.join when a segment is not a string. -/
inductive JoinError where
  | typeError
deriving DecidableEq, Repr

/-- Embeds the argument validation of Node path.join: segments are checked
in order and the first non-string segment throws a TypeError. -/
def validateSegments : List PathSegment → Except JoinError (List String)
  | [] => .ok []
  | .num _ :: _ => .error .typeError
  | .str s :: rest =>
    match validateSegments rest with
    | .error e => .error e
    | .ok ss => .ok (s :: ss)

/-- Embeds Node path.join over raw segments: validate every segment, then
join the strings. -/
def pathJoin (segments : List PathSegment) : Except JoinError String :=
  match validateSegments segments with
  | .error e => .error e
  | .ok ss => .ok (joinPath ss)

/-- Embeds getPath of the sources/registry module: the shard parts for 1-,
2- and 3-character names carry the JavaScript numbers 1, 2 and 3, which the
path.join validation rejects with a TypeError, so only longer names yield a
path. -/
def getPath (localDir : String) (name : String) : Except JoinError String :=
  let parts : List PathSegment :=
    if name.length = 1 then [.num 1, .str name]
    else if name.length = 2 then [.num 2, .str name]
    else if name.length = 3 then [.num 3, .str (name.take 1)]
    else [.str (name.take 2), .str ((name.drop 2).take 2)]
  pathJoin (.str localDir :: (parts ++ [.str name]))

/-- The directory part of a path, embedding path.dirname. -/
def dirname (path : String) : String :=
  joinPath (((splitOnChar '/' path.data).map String.mk).dropLast)

/-- The file part of a path, embedding path.basename. -/
def basename (path : String) : String :=
  (((splitOnChar '/' path.data).map String.mk).getLastD path)

/-- The registry part of the configuration: local mirror directory and
remote repository (the source fields are named local and remote). -/
structure RegistryConfig where
  localDir : String
  remoteDir : String
deriving DecidableEq, Repr

/-- An action performed by the source provider against the git and file
system primitives. -/
inductive GitAction where
  | ensureDir (dir : String)
  | clone (remote : String) (base : String) (dir : String)
  | pull (dir : String)
deriving DecidableEq, BEq, Repr

/-- Embeds update of the sources/registry module. The existence of the local
mirror directory and the outcomes of the external clone and pull primitives
are parameters; the result is the trace of attempted actions together with
the outcome of the whole operation (a thrown primitive error aborts it). -/
def update (config : RegistryConfig) (localExists : Bool)
    (cloneResult pullResult : Except String Unit) :
    List GitAction × Except String Unit :=
  if localExists then
    ([GitAction.pull config.localDir], pullResult)
  else
    let dir := dirname config.localDir
    match cloneResult with
    | .error e =>
      ([GitAction.ensureDir dir,
        GitAction.clone config.remoteDir (basename config.localDir) dir], .error e)
    | .ok _ =>
      ([GitAction.ensureDir dir,
        GitAction.clone config.remoteDir (basename config.localDir) dir,
        GitAction.pull config.localDir], pullResult)

/-- Whether the local mirror directory exists after an update call: a
successful clone creates it. -/
def localExistsAfter (localExists : Bool) (cloneResult : Except String Unit) : Bool :=
  localExists || (match cloneResult with | .ok _ => true | .error _ => false)

/-- The digest embedded in a source string after the number sign, embedding
the JavaScript destructuring of source.split(sep, 2) with a number-sign
separator: the element at index 1, which is undefined when the source has no
number sign. -/
def embeddedChecksum (source : String) : Option String :=
  match splitOnChar '#' source.data with
  | _ :: second :: _ => some (String.mk second)
  | _ => none

/-- An action performed by fetch against the external primitives. -/
inductive FetchAction where
  | download
  | move
  | ensureDirSrc
  | extract
deriving DecidableEq, BEq, Repr

/-- Embeds fetch of the sources/registry module. Whether the trusted archive
file already exists and the digest the checksum primitive computes for the
downloaded temporary file are parameters; the result is the trace of
attempted actions together with the outcome. A digest comparison failure
throws before the move, so the temporary file is never promoted; when the
embedded digest is absent the comparison also fails, since a computed string
digest never equals an undefined value. -/
def fetch (registration : Registration) (fileExists : Bool) (computed : String) :
    List FetchAction × Except String Unit :=
  if fileExists then
    ([FetchAction.ensureDirSrc, FetchAction.extract], .ok ())
  else
    let comparisonOk :=
      match embeddedChecksum registration.source with
      | some checksum => computed == checksum
      | none => false
    if comparisonOk then
      ([FetchAction.download, FetchAction.move, FetchAction.ensureDirSrc,
        FetchAction.extract], .ok ())
    else
      ([FetchAction.download],
        .error ("Invalid checksum for " ++ registration.name ++ "@" ++ registration.version))

/-- Whether the trusted archive path holds a file after a fetch call: only a
move of the verified temporary file can create it. -/
def archiveExistsAfter (fileExists : Bool) (actions : List FetchAction) : Bool :=
  fileExists || actions.contains FetchAction.move

/-- Whether an action is a clone of the remote registry. -/
def GitAction.isClone : GitAction → Bool
  | .clone _ _ _ => true
  | _ => false

/-- Whether an action is a pull of a local directory. -/
def GitAction.isPull : GitAction → Bool
  | .pull _ => true
  | _ => false

/-- Claim C6: the sharding scheme the spec states only holds for names of
length at least four. For a 1-, 2- or 3-character name the source places a
JavaScript number among the path.join arguments, and path.join validates
every segment and throws a TypeError on a non-string, so getPath throws for
every short name and never returns the claimed 1/a, 2/ab or 3/a/abc paths;
a longer name yields first2/next2/name under the local mirror directory as
claimed. -/
theorem getPath_shard_segments (localDir name : String) :
    (name.length = 1 → getPath localDir name = .error .typeError) ∧
    (name.length = 2 → getPath localDir name = .error .typeError) ∧
    (name.length = 3 → getPath localDir name = .error .typeError) ∧
    (4 ≤ name.length →
      getPath localDir name =
        .ok (localDir ++ "/" ++ name.take 2 ++ "/" ++ (name.drop 2).take 2 ++ "/" ++ name)) ∧
    getPath localDir "a" = .error .typeError ∧
    getPath localDir "ab" = .error .typeError ∧
    getPath localDir "abc" = .error .typeError ∧
    getPath localDir "abcde" =
      .ok (localDir ++ "/" ++ "ab" ++ "/" ++ "cd" ++ "/" ++ "abcde") := by
  have gen1 : ∀ n : String, n.length = 1 → getPath localDir n = .error .typeError := by
    intro n h
    simp only [getPath, pathJoin, validateSegments, h, if_true, List.cons_append,
      List.nil_append]
  have gen2 : ∀ n : String, n.length = 2 → getPath localDir n = .error .typeError := by
    intro n h
    have h1 : ¬ n.length = 1 := by omega
    simp only [getPath, pathJoin, validateSegments, h, h1, if_true, if_false,
      List.cons_append, List.nil_append]
  have gen3 : ∀ n : String, n.length = 3 → getPath localDir n = .error .typeError := by
    intro n h
    have h1 : ¬ n.length = 1 := by omega
    have h2 : ¬ n.length = 2 := by omega
    simp only [getPath, pathJoin, validateSegments, h, h1, h2, if_true, if_false,
      List.cons_append, List.nil_append]
  have gen4 : ∀ n : String, 4 ≤ n.length →
      getPath localDir n =
        .ok (localDir ++ "/" ++ n.take 2 ++ "/" ++ (n.drop 2).take 2 ++ "/" ++ n) := by
    intro n h
    have h1 : ¬ n.length = 1 := by omega
    have h2 : ¬ n.length = 2 := by omega
    have h3 : ¬ n.length = 3 := by omega
    simp only [getPath, pathJoin, validateSegments, joinPath, h1, h2, h3, if_false,
      List.cons_append, List.nil_append, String.append_assoc]
  refine ⟨gen1 name, gen2 name, gen3 name, gen4 name,
    gen1 "a" (by decide), gen2 "ab" (by decide), gen3 "abc" (by decide), ?_⟩
  rw [gen4 "abcde" (by decide), show ("abcde".take 2) = "ab" from by decide,
    show (("abcde".drop 2).take 2) = "cd" from by decide]

/-- Witness for claim C6 at a throwing short name and a succeeding long
name. -/
theorem getPath_shard_segments_witness :
    (("a" : String).length = 1 ∧ getPath "registry" "a" = .error .typeError) ∧
      (4 ≤ ("abcde" : String).length ∧
        getPath "registry" "abcde" =
          .ok ("registry" ++ "/" ++ "abcde".take 2 ++ "/" ++ ("abcde".drop 2).take 2 ++
            "/" ++ "abcde")) :=
  ⟨⟨by decide, (getPath_shard_segments "registry" "a").1 (by decide)⟩,
    ⟨by decide, (getPath_shard_segments "registry" "abcde").2.2.2.1 (by decide)⟩⟩

/-- Claim C2: when the trusted archive is absent and the computed digest of
the downloaded archive differs from the digest embedded after the number
sign of the registration source, fetch fails with the checksum error naming
the package and version, the temporary file is never moved to the trusted
archive path, and that path remains absent. -/
theorem fetch_checksum_mismatch (registration : Registration)
    (computed checksum : String)
    (hck : embeddedChecksum registration.source = some checksum)
    (hne : computed ≠ checksum) :
    (fetch registration false computed).2 =
        .error ("Invalid checksum for " ++ registration.name ++ "@" ++ registration.version) ∧
      FetchAction.move ∉ (fetch registration false computed).1 ∧
      archiveExistsAfter false (fetch registration false computed).1 = false := by
  have hbeq : (computed == checksum) = false := beq_eq_false_iff_ne.mpr hne
  have hfetch : fetch registration false computed =
      ([FetchAction.download],
        .error ("Invalid checksum for " ++ registration.name ++ "@" ++ registration.version)) := by
    simp [fetch, hck, hbeq]
  rw [hfetch]
  refine ⟨rfl, ?_, ?_⟩
  · show FetchAction.move ∉ [FetchAction.download]
    simp
  · show archiveExistsAfter false [FetchAction.download] = false
    rfl

/-- Witness for claim C2 at a concrete registration and digest. -/
theorem fetch_checksum_mismatch_witness :
    embeddedChecksum "registry+x#deadbeef" = some "deadbeef" ∧
      ("beefdead" : String) ≠ "deadbeef" ∧
      ((fetch ⟨"pkg@1.0.0", "pkg", "1.0.0", "registry+x#deadbeef", []⟩ false "beefdead").2 =
          .error ("Invalid checksum for " ++ "pkg" ++ "@" ++ "1.0.0") ∧
        FetchAction.move ∉
          (fetch ⟨"pkg@1.0.0", "pkg", "1.0.0", "registry+x#deadbeef", []⟩ false "beefdead").1 ∧
        archiveExistsAfter false
          (fetch ⟨"pkg@1.0.0", "pkg", "1.0.0", "registry+x#deadbeef", []⟩ false "beefdead").1 =
          false) :=
  ⟨by decide, by decide,
    fetch_checksum_mismatch ⟨"pkg@1.0.0", "pkg", "1.0.0", "registry+x#deadbeef", []⟩
      "beefdead" "deadbeef" (by decide) (by decide)⟩

/-- Claim C8: update clones the remote registry only when the local mirror
directory is absent, follows every performed or skipped clone with a single
pull, never re-clones an existing directory, propagates clone and pull
failures unchanged without retrying, and a repeat call after a successful
update only pulls. -/
theorem update_clone_then_pull (config : RegistryConfig) (localExists : Bool)
    (cloneResult pullResult : Except String Unit) :
    (localExists = true →
      (update config localExists cloneResult pullResult).1 = [GitAction.pull config.localDir]) ∧
    ((∃ a ∈ (update config localExists cloneResult pullResult).1, GitAction.isClone a = true) ↔
      localExists = false) ∧
    (∀ e, localExists = false → cloneResult = .error e →
      (update config localExists cloneResult pullResult).2 = .error e ∧
        ∀ a ∈ (update config localExists cloneResult pullResult).1, GitAction.isPull a = false) ∧
    ((localExists = true ∨ cloneResult = .ok ()) →
      GitAction.pull config.localDir ∈ (update config localExists cloneResult pullResult).1 ∧
        (update config localExists cloneResult pullResult).2 = pullResult) ∧
    ((update config localExists cloneResult pullResult).1.countP
        (fun a => GitAction.isClone a) ≤ 1 ∧
      (update config localExists cloneResult pullResult).1.countP
        (fun a => GitAction.isPull a) ≤ 1) ∧
    ((update config localExists cloneResult pullResult).2 = .ok () →
      ∀ cloneResult2 pullResult2,
        (update config (localExistsAfter localExists cloneResult) cloneResult2 pullResult2).1 =
          [GitAction.pull config.localDir]) := by
  cases localExists <;> cases cloneResult <;>
    simp [update, localExistsAfter, GitAction.isClone, GitAction.isPull, List.countP,
      List.countP.go]

/-- Witness for claim C8: a first call with an absent local mirror and
successful primitives, followed by a second call, which only pulls. -/
theorem update_clone_then_pull_witness :
    ((update ⟨"home/mirror", "remote"⟩ false (.ok ()) (.ok ())).2 = .ok () →
      ∀ cloneResult2 pullResult2,
        (update ⟨"home/mirror", "remote"⟩
            (localExistsAfter false (.ok ())) cloneResult2 pullResult2).1 =
          [GitAction.pull "home/mirror"]) ∧
      (update ⟨"home/mirror", "remote"⟩ false (.ok ()) (.ok ())).2 = .ok () :=
  ⟨(update_clone_then_pull ⟨"home/mirror", "remote"⟩ false (.ok ()) (.ok ())).2.2.2.2.2,
    by decide⟩

/-- Claim C9: readLockfile returns the absent result both when the lockfile
file does not exist and when reading, parsing or hydrating it fails, and it
only returns a lockfile when every step succeeded; no underlying error is
ever propagated. -/
theorem readLockfile_absent_on_failure (fileExists : Bool)
    (readResult : Except String LockfileToml) :
    (fileExists = false → readLockfile fileExists readResult = none) ∧
    (∀ e, readResult = .error e → readLockfile fileExists readResult = none) ∧
    (∀ parsed e, readResult = .ok parsed → fromToml parsed = .error e →
      readLockfile fileExists readResult = none) ∧
    (∀ lockfile, readLockfile fileExists readResult = some lockfile →
      fileExists = true ∧ ∃ parsed, readResult = .ok parsed ∧ fromToml parsed = .ok lockfile) := by
  refine ⟨?_, ?_, ?_, ?_⟩
  · intro h
    simp [readLockfile, h]
  · intro e h
    cases fileExists <;> simp [readLockfile, h]
  · intro parsed e h hf
    cases fileExists <;> simp [readLockfile, h, hf]
  · intro lockfile h
    cases fileExists with
    | false => simp [readLockfile] at h
    | true =>
      refine ⟨rfl, ?_⟩
      cases hr : readResult with
      | error e => simp [readLockfile, hr] at h
      | ok parsed =>
        refine ⟨parsed, rfl, ?_⟩
        cases hf : fromToml parsed with
        | error e => simp [readLockfile, hr, hf] at h
        | ok lf =>
          simp [readLockfile, hr, hf] at h
          rw [h]

/-- Witness for claim C9: a corrupt lockfile, one whose text the TOML parser
rejects, and an absent file all read as absent. -/
theorem readLockfile_absent_on_failure_witness :
    (fromToml ⟨none, [], []⟩ = .error .missingRoot) ∧
      readLockfile true (.ok ⟨none, [], []⟩) = none ∧
      readLockfile true (.error "Unexpected token") = none ∧
      readLockfile false (.ok ⟨none, [], []⟩) = none :=
  ⟨by decide,
    (readLockfile_absent_on_failure true (.ok ⟨none, [], []⟩)).2.2.1 ⟨none, [], []⟩
      .missingRoot rfl (by decide),
    (readLockfile_absent_on_failure true (.error "Unexpected token")).2.1
      "Unexpected token" rfl,
    (readLockfile_absent_on_failure false (.ok ⟨none, [], []⟩)).1 rfl⟩

/-- Claim C5: the read of an index file succeeds exactly when every line is
valid JSON, and any malformed line fails the whole read with the parse
error, so no partial sequence of candidates is ever returned. -/
theorem resolve_whole_read_fails (lines : List IndexLine) :
    ((∃ registrations, resolveLines lines = .ok registrations) ↔
      ∀ line ∈ lines, (parseLine line).isSome = true) ∧
    ((∃ line ∈ lines, parseLine line = none) →
      resolveLines lines = .error "Unexpected token in JSON") := by
  induction lines with
  | nil =>
    refine ⟨⟨fun _ => by simp, fun _ => ⟨[], rfl⟩⟩, ?_⟩
    rintro ⟨l, hl, _⟩
    simp at hl
  | cons line rest ih =>
    cases line with
    | malformed raw =>
      refine ⟨⟨?_, ?_⟩, ?_⟩
      · rintro ⟨regs, hregs⟩
        simp [resolveLines, parseLine] at hregs
      · intro h
        have := h (.malformed raw) (by simp)
        simp [parseLine] at this
      · intro _
        simp [resolveLines, parseLine]
    | record r =>
      refine ⟨⟨?_, ?_⟩, ?_⟩
      · rintro ⟨regs, hregs⟩
        intro l hl
        rcases List.mem_cons.mp hl with hl | hl
        · subst hl
          simp [parseLine]
        · refine (ih.1).mp ?_ l hl
          by_cases hy : r.yanked
          · exact ⟨regs, by simpa [resolveLines, parseLine, hy] using hregs⟩
          · simp only [resolveLines, parseLine, hy, if_false] at hregs
            cases hr : resolveLines rest with
            | error e => rw [hr] at hregs; simp at hregs
            | ok rs => exact ⟨rs, rfl⟩
      · intro h
        have hrest : ∀ l ∈ rest, (parseLine l).isSome = true :=
          fun l hl => h l (List.mem_cons_of_mem _ hl)
        obtain ⟨rs, hrs⟩ := (ih.1).mpr hrest
        by_cases hy : r.yanked
        · exact ⟨rs, by simp [resolveLines, parseLine, hy, hrs]⟩
        · exact ⟨toIndexRegistration r :: rs, by simp [resolveLines, parseLine, hy, hrs]⟩
      · rintro ⟨l, hl, hpl⟩
        rcases List.mem_cons.mp hl with hl | hl
        · subst hl
          simp [parseLine] at hpl
        · have herr := ih.2 ⟨l, hl, hpl⟩
          by_cases hy : r.yanked <;> simp [resolveLines, parseLine, hy, herr]

/-- Witness for claim C5: a file whose second line is malformed fails as a
whole even though its first line is a valid record. -/
theorem resolve_whole_read_fails_witness :
    (∃ line ∈ [IndexLine.record ⟨"a", "1.0.0", [], "c", [], false⟩,
        IndexLine.malformed "not json"], parseLine line = none) ∧
      resolveLines [IndexLine.record ⟨"a", "1.0.0", [], "c", [], false⟩,
          IndexLine.malformed "not json"] =
        .error "Unexpected token in JSON" :=
  ⟨⟨IndexLine.malformed "not json", by decide, by decide⟩,
    (resolve_whole_read_fails [IndexLine.record ⟨"a", "1.0.0", [], "c", [], false⟩,
        IndexLine.malformed "not json"]).2
      ⟨IndexLine.malformed "not json", by decide, by decide⟩⟩

/-- Claim C7: a successful read returns exactly the non-yanked records, in
line order, each mapped to a Registration with the registry source string
carrying the record checksum and dependencies mapped field for field; in
particular no yanked record ever contributes a candidate. -/
theorem resolve_drops_yanked (lines : List IndexLine)
    (registrations : List IndexRegistration)
    (h : resolveLines lines = .ok registrations) :
    registrations =
      ((lines.filterMap parseLine).filter fun r => !r.yanked).map toIndexRegistration := by
  induction lines generalizing registrations with
  | nil =>
    simp [resolveLines] at h
    simp [← h]
  | cons line rest ih =>
    cases line with
    | malformed raw => simp [resolveLines, parseLine] at h
    | record r =>
      cases hy : r.yanked with
      | true =>
        simp only [resolveLines, parseLine, hy, if_true] at h
        rw [ih registrations h]
        simp [parseLine, hy]
      | false =>
        have hstep : resolveLines (IndexLine.record r :: rest) =
            match resolveLines rest with
            | .error e => .error e
            | .ok regs => .ok (toIndexRegistration r :: regs) := by
          simp [resolveLines, parseLine, hy]
        rw [hstep] at h
        cases hr : resolveLines rest with
        | error e =>
          rw [hr] at h
          simp at h
        | ok rs =>
          rw [hr] at h
          simp only [Except.ok.injEq] at h
          subst h
          simp [parseLine, hy, ih rs hr]

/-- Witness for claim C7: a yanked record is dropped and a surviving record
is mapped to its candidate registration. -/
theorem resolve_drops_yanked_witness :
    resolveLines [IndexLine.record ⟨"a", "1.0.0", [], "c1", [], true⟩,
        IndexLine.record ⟨"a", "1.1.0", [], "c2", [], false⟩] =
      .ok [toIndexRegistration ⟨"a", "1.1.0", [], "c2", [], false⟩] ∧
    [toIndexRegistration ⟨"a", "1.1.0", [], "c2", [], false⟩] =
      ((([IndexLine.record ⟨"a", "1.0.0", [], "c1", [], true⟩,
          IndexLine.record ⟨"a", "1.1.0", [], "c2", [], false⟩].filterMap
            parseLine).filter fun r => !r.yanked).map toIndexRegistration) :=
  ⟨by decide,
    resolve_drops_yanked
      [IndexLine.record ⟨"a", "1.0.0", [], "c1", [], true⟩,
        IndexLine.record ⟨"a", "1.1.0", [], "c2", [], false⟩]
      [toIndexRegistration ⟨"a", "1.1.0", [], "c2", [], false⟩] (by decide)⟩

/-- A last-wins keyed fold that returns some value was fed a matching
element, or already held that value in its accumulator. -/
theorem foldl_lookup_eq_some {α β : Type} (key : α → String) (val : α → β)
    (n : String) (y : β) :
    ∀ (l : List α) (acc : Option β),
      l.foldl (fun acc d => if key d == n then some (val d) else acc) acc = some y →
      acc = some y ∨ ∃ d ∈ l, key d = n ∧ val d = y := by
  intro l
  induction l with
  | nil => exact fun acc h => Or.inl h
  | cons d ds ih =>
    intro acc h
    rw [List.foldl_cons] at h
    rcases ih _ h with h1 | h2
    · by_cases hd : (key d == n) = true
      · rw [if_pos hd] at h1
        refine Or.inr ⟨d, List.mem_cons_self _ _, beq_iff_eq.mp hd, ?_⟩
        exact (Option.some.inj h1)
      · rw [if_neg hd] at h1
        exact Or.inl h1
    · exact Or.inr ⟨h2.choose, List.mem_cons_of_mem _ h2.choose_spec.1,
        h2.choose_spec.2.1, h2.choose_spec.2.2⟩

/-- A dependency found by lookupByName is an element of the list and bears
the looked-up name. -/
theorem lookupByName_eq_some (deps : List Dependency) (n : String) (c : Dependency)
    (h : lookupByName deps n = some c) : c ∈ deps ∧ c.name = n := by
  rcases foldl_lookup_eq_some Dependency.name (fun d => d) n c deps none h with h1 | h2
  · exact absurd h1 (by simp)
  · obtain ⟨d, hd, hk, hv⟩ := h2
    rw [← hv]
    exact ⟨hd, hk⟩

/-- A member found by lookupMember is an element of the list and bears the
looked-up name. -/
theorem lookupMember_eq_some (members : List Snapshot) (n : String) (c : Snapshot)
    (h : lookupMember members n = some c) : c ∈ members ∧ c.name = n := by
  rcases foldl_lookup_eq_some Snapshot.name (fun m => m) n c members none h with h1 | h2
  · exact absurd h1 (by simp)
  · obtain ⟨d, hd, hk, hv⟩ := h2
    rw [← hv]
    exact ⟨hd, hk⟩

/-- The dependency-set comparison of the spec: equal counts, every locked
dependency found by name among the current dependencies, and the found
current dependency accepting the locked pinned version. -/
def dependencySetSatisfied (current locked : Snapshot) : Prop :=
  current.dependencies.length = locked.dependencies.length ∧
  ∀ d ∈ locked.dependencies, ∃ c ∈ current.dependencies,
    c.name = d.name ∧ lookupByName current.dependencies d.name = some c ∧
      satisfies c d = true

/-- The boolean comparison of the source coincides with the dependency-set
comparison of the spec. -/
theorem compareDependencies_iff (current locked : Snapshot) :
    compareDependencies current locked = true ↔ dependencySetSatisfied current locked := by
  unfold compareDependencies dependencySetSatisfied
  rw [Bool.and_eq_true, List.all_eq_true]
  apply and_congr
  · exact beq_iff_eq
  · constructor
    · intro h d hd
      have hx := h d hd
      cases hc : lookupByName current.dependencies d.name with
      | none => rw [hc] at hx; simp at hx
      | some c =>
        rw [hc] at hx
        obtain ⟨hmem, hname⟩ := lookupByName_eq_some _ _ _ hc
        exact ⟨c, hmem, hname, rfl, hx⟩
    · intro h d hd
      obtain ⟨c, _, _, hc, hsat⟩ := h d hd
      rw [hc]
      exact hsat

/-- Claim C3: isLockfileValid holds exactly when the root pair and every
matched member pair satisfy the dependency-set comparison, the member counts
agree, and every lockfile member has a same-named current member; the
comparison is asymmetric, with the current constraint judging the locked
pinned version. -/
theorem isLockfileValid_iff (lockfile : Lockfile) (workspace : Workspace) :
    isLockfileValid lockfile workspace = true ↔
      (dependencySetSatisfied workspace.root lockfile.workspace.root ∧
        lockfile.workspace.members.length = workspace.members.length ∧
        ∀ member ∈ lockfile.workspace.members, ∃ currentMember ∈ workspace.members,
          currentMember.name = member.name ∧
          lookupMember workspace.members member.name = some currentMember ∧
          dependencySetSatisfied currentMember member) := by
  unfold isLockfileValid
  rw [Bool.and_eq_true, Bool.and_eq_true, List.all_eq_true]
  apply and_congr (compareDependencies_iff _ _)
  apply and_congr beq_iff_eq
  constructor
  · intro h member hmem
    have hx := h member hmem
    cases hc : lookupMember workspace.members member.name with
    | none => rw [hc] at hx; simp at hx
    | some currentMember =>
      rw [hc] at hx
      obtain ⟨hin, hname⟩ := lookupMember_eq_some _ _ _ hc
      exact ⟨currentMember, hin, hname, rfl, (compareDependencies_iff _ _).mp hx⟩
  · intro h member hmem
    obtain ⟨currentMember, _, _, hc, hsat⟩ := h member hmem
    rw [hc]
    exact (compareDependencies_iff _ _).mpr hsat

/-- Witness for claim C3 at a workspace whose caret constraint accepts the
locked pinned version. -/
theorem isLockfileValid_iff_witness :
    dependencySetSatisfied ⟨"root", "1.0.0", [⟨"a", "^1.0.0", ""⟩]⟩
        ⟨"root", "2.0.0", [⟨"a", "1.2.0", "registry+x#c"⟩]⟩ ∧
      ([("a" : String)].length = [("b" : String)].length → True) ∧
      isLockfileValid
        ⟨⟨⟨"root", "2.0.0", [⟨"a", "1.2.0", "registry+x#c"⟩]⟩, []⟩, []⟩
        ⟨⟨"root", "1.0.0", [⟨"a", "^1.0.0", ""⟩]⟩, []⟩ = true :=
  ⟨(((isLockfileValid_iff
        ⟨⟨⟨"root", "2.0.0", [⟨"a", "1.2.0", "registry+x#c"⟩]⟩, []⟩, []⟩
        ⟨⟨"root", "1.0.0", [⟨"a", "^1.0.0", ""⟩]⟩, []⟩).mp (by decide)).1),
    fun _ => trivial, by decide⟩

/-- The boolean comparison only reads the two dependency lists. -/
theorem compareDependencies_congr (a a2 b b2 : Snapshot)
    (ha : a.dependencies = a2.dependencies) (hb : b.dependencies = b2.dependencies) :
    compareDependencies a b = compareDependencies a2 b2 := by
  unfold compareDependencies lookupByName
  rw [ha, hb]

/-- The last-wins member lookup respects pairwise name-and-dependency
agreement of the two member lists: generalized over the fold accumulators. -/
theorem lookupMember_fold_rel (n : String) :
    ∀ {l l2 : List Snapshot},
      List.Forall₂ (fun a b : Snapshot => a.name = b.name ∧ a.dependencies = b.dependencies)
        l l2 →
      ∀ (acc acc2 : Option Snapshot),
        ((acc = none ∧ acc2 = none) ∨
          ∃ a b, acc = some a ∧ acc2 = some b ∧ a.name = b.name ∧
            a.dependencies = b.dependencies) →
        ((l.foldl (fun acc m => if m.name == n then some m else acc) acc = none ∧
            l2.foldl (fun acc m => if m.name == n then some m else acc) acc2 = none) ∨
          ∃ a b, l.foldl (fun acc m => if m.name == n then some m else acc) acc = some a ∧
            l2.foldl (fun acc m => if m.name == n then some m else acc) acc2 = some b ∧
            a.name = b.name ∧ a.dependencies = b.dependencies) := by
  intro l l2 h
  induction h with
  | nil => exact fun acc acc2 hacc => hacc
  | cons hrel hrest ih =>
    intro acc acc2 hacc
    rw [List.foldl_cons, List.foldl_cons]
    apply ih
    rename_i a b l l2
    by_cases hn : (a.name == n) = true
    · have hn2 : (b.name == n) = true := by rw [← hrel.1]; exact hn
      rw [if_pos hn, if_pos hn2]
      exact Or.inr ⟨a, b, rfl, rfl, hrel.1, hrel.2⟩
    · have hn2 : ¬ (b.name == n) = true := by rw [← hrel.1]; exact hn
      rw [if_neg hn, if_neg hn2]
      exact hacc

/-- The last-wins member lookup respects pairwise name-and-dependency
agreement of the two member lists. -/
theorem lookupMember_rel (n : String) {l l2 : List Snapshot}
    (h : List.Forall₂
      (fun a b : Snapshot => a.name = b.name ∧ a.dependencies = b.dependencies) l l2) :
    (lookupMember l n = none ∧ lookupMember l2 n = none) ∨
      ∃ a b, lookupMember l n = some a ∧ lookupMember l2 n = some b ∧
        a.name = b.name ∧ a.dependencies = b.dependencies :=
  lookupMember_fold_rel n h none none (Or.inl ⟨rfl, rfl⟩)

/-- The member loop of the validity check respects pairwise
name-and-dependency agreement of current and locked member lists. -/
theorem memberLoop_congr (wsm wsm2 : List Snapshot)
    (hwm : List.Forall₂
      (fun a b : Snapshot => a.name = b.name ∧ a.dependencies = b.dependencies)
      wsm wsm2) :
    ∀ {ms ms2 : List Snapshot},
      List.Forall₂
        (fun a b : Snapshot => a.name = b.name ∧ a.dependencies = b.dependencies)
        ms ms2 →
      (ms.all fun member =>
        match lookupMember wsm member.name with
        | none => false
        | some currentMember => compareDependencies currentMember member) =
      (ms2.all fun member =>
        match lookupMember wsm2 member.name with
        | none => false
        | some currentMember => compareDependencies currentMember member) := by
  intro ms ms2 h
  induction h with
  | nil => rfl
  | cons hrel hrest ih =>
    rename_i m m2 rest rest2
    rw [List.all_cons, List.all_cons, ih]
    have hname : m2.name = m.name := hrel.1.symm
    rcases lookupMember_rel m.name hwm with ⟨h1, h2⟩ | ⟨a, b, h1, h2, hab⟩
    · rw [h1, hname, h2]
    · rw [h1, hname, h2]
      show (compareDependencies a m && _) = (compareDependencies b m2 && _)
      rw [compareDependencies_congr a b m m2 hab.2 hrel.2]

/-- Claim C10: the validity check never reads the name or version of the
lockfile or workspace root, nor the version of any member snapshot: two
inputs that agree on the root dependency lists and, member for member, on
member names and member dependency lists, validate identically. -/
theorem isLockfileValid_ignores_versions (lf lf2 : Lockfile) (ws ws2 : Workspace)
    (hlr : lf.workspace.root.dependencies = lf2.workspace.root.dependencies)
    (hwr : ws.root.dependencies = ws2.root.dependencies)
    (hlm : List.Forall₂
      (fun a b : Snapshot => a.name = b.name ∧ a.dependencies = b.dependencies)
      lf.workspace.members lf2.workspace.members)
    (hwm : List.Forall₂
      (fun a b : Snapshot => a.name = b.name ∧ a.dependencies = b.dependencies)
      ws.members ws2.members) :
    isLockfileValid lf ws = isLockfileValid lf2 ws2 := by
  unfold isLockfileValid
  rw [compareDependencies_congr ws.root ws2.root lf.workspace.root lf2.workspace.root
    hwr hlr]
  rw [hlm.length_eq, hwm.length_eq]
  rw [memberLoop_congr ws.members ws2.members hwm hlm]

/-- Witness for claim C10: changing the root names, the root versions and a
member version leaves the verdict unchanged. -/
theorem isLockfileValid_ignores_versions_witness :
    isLockfileValid
        ⟨⟨⟨"old", "1.0.0", []⟩, [⟨"m", "1.0.0", []⟩]⟩, []⟩
        ⟨⟨"old", "1.0.0", []⟩, [⟨"m", "1.0.0", []⟩]⟩ =
      isLockfileValid
        ⟨⟨⟨"new", "9.9.9", []⟩, [⟨"m", "2.0.0", []⟩]⟩, []⟩
        ⟨⟨"other", "8.8.8", []⟩, [⟨"m", "3.0.0", []⟩]⟩ :=
  isLockfileValid_ignores_versions
    ⟨⟨⟨"old", "1.0.0", []⟩, [⟨"m", "1.0.0", []⟩]⟩, []⟩
    ⟨⟨⟨"new", "9.9.9", []⟩, [⟨"m", "2.0.0", []⟩]⟩, []⟩
    ⟨⟨"old", "1.0.0", []⟩, [⟨"m", "1.0.0", []⟩]⟩
    ⟨⟨"other", "8.8.8", []⟩, [⟨"m", "3.0.0", []⟩]⟩
    rfl rfl (List.Forall₂.cons ⟨rfl, rfl⟩ List.Forall₂.nil)
    (List.Forall₂.cons ⟨rfl, rfl⟩ List.Forall₂.nil)

/-- A successful throwing map relates inputs and outputs pointwise. -/
theorem mapOk_eq_ok {α β : Type} (f : α → Except LockError β) :
    ∀ (xs : List α) (ys : List β), mapOk f xs = .ok ys →
      List.Forall₂ (fun x y => f x = .ok y) xs ys := by
  intro xs
  induction xs with
  | nil =>
    intro ys h
    simp only [mapOk, Except.ok.injEq] at h
    rw [← h]
    constructor
  | cons x xs ih =>
    intro ys h
    simp only [mapOk] at h
    cases hx : f x with
    | error e => rw [hx] at h; simp at h
    | ok y =>
      rw [hx] at h
      cases hm : mapOk f xs with
      | error e => rw [hm] at h; simp at h
      | ok ys2 =>
        rw [hm] at h
        simp only [Except.ok.injEq] at h
        rw [← h]
        exact List.Forall₂.cons hx (ih ys2 hm)

/-- A failing throwing map fails on one of its elements, with that error. -/
theorem mapOk_eq_error {α β : Type} (f : α → Except LockError β) :
    ∀ (xs : List α) (e : LockError), mapOk f xs = .error e →
      ∃ x ∈ xs, f x = .error e := by
  intro xs
  induction xs with
  | nil => intro e h; simp [mapOk] at h
  | cons x xs ih =>
    intro e h
    simp only [mapOk] at h
    cases hx : f x with
    | error e2 =>
      rw [hx] at h
      simp only [Except.error.injEq] at h
      exact ⟨x, List.mem_cons_self _ _, by rw [hx, h]⟩
    | ok y =>
      rw [hx] at h
      cases hm : mapOk f xs with
      | error e2 =>
        rw [hm] at h
        simp only [Except.error.injEq] at h
        obtain ⟨x2, hx2, he2⟩ := ih e2 hm
        exact ⟨x2, List.mem_cons_of_mem _ hx2, by rw [he2, h]⟩
      | ok ys => rw [hm] at h; simp at h

/-- A throwing map over elements that all succeed succeeds. -/
theorem mapOk_exists_ok {α β : Type} (f : α → Except LockError β) :
    ∀ (xs : List α), (∀ x ∈ xs, ∃ y, f x = .ok y) →
      ∃ ys, mapOk f xs = .ok ys := by
  intro xs
  induction xs with
  | nil => exact fun _ => ⟨[], rfl⟩
  | cons x xs ih =>
    intro h
    obtain ⟨y, hy⟩ := h x (List.mem_cons_self _ _)
    obtain ⟨ys, hys⟩ := ih fun x2 hx2 => h x2 (List.mem_cons_of_mem _ hx2)
    exact ⟨y :: ys, by simp only [mapOk, hy, hys]⟩

/-- getDependency succeeds exactly on the mapped value of the name before
the first space of the id. -/
theorem getDependency_eq_ok (id : String) (byName : DependencyByName) (d : Dependency) :
    getDependency id byName = .ok d ↔ mapGet byName (firstWord id) = some d := by
  unfold getDependency
  cases h : mapGet byName (firstWord id) <;> simp

/-- getDependency fails exactly when the name before the first space of the
id is unmapped, and then with the package-not-found error naming the id. -/
theorem getDependency_eq_error (id : String) (byName : DependencyByName) (e : LockError) :
    getDependency id byName = .error e ↔
      (e = .packageNotFound id ∧ mapGet byName (firstWord id) = none) := by
  unfold getDependency
  cases h : mapGet byName (firstWord id) <;> simp
  exact eq_comm

/-- A successful toManifest validates the raw snapshot and hydrates its ids
in order. -/
theorem toManifest_eq_ok (value : SnapshotToml) (byName : DependencyByName)
    (s : Snapshot) (h : toManifest value byName = .ok s) :
    value.name ≠ "" ∧ value.version ≠ "" ∧ s.name = value.name ∧
      s.version = value.version ∧
      List.Forall₂ (fun id d => getDependency id byName = .ok d)
        value.dependencies s.dependencies := by
  unfold toManifest at h
  by_cases hv : value.name = "" ∨ value.version = ""
  · rw [if_pos hv] at h
    simp at h
  · rw [if_neg hv] at h
    push_neg at hv
    cases hm : mapOk (fun id => getDependency id byName) value.dependencies with
    | error e => rw [hm] at h; simp at h
    | ok ds =>
      rw [hm] at h
      simp only [Except.ok.injEq] at h
      rw [← h]
      exact ⟨hv.1, hv.2, rfl, rfl, mapOk_eq_ok _ _ _ hm⟩

/-- A failing toManifest of a snapshot with nonempty name and version fails
on the hydration of one of its ids. -/
theorem toManifest_eq_error (value : SnapshotToml) (byName : DependencyByName)
    (e : LockError) (hn : value.name ≠ "") (hv : value.version ≠ "")
    (h : toManifest value byName = .error e) :
    ∃ id ∈ value.dependencies, getDependency id byName = .error e := by
  unfold toManifest at h
  rw [if_neg (by push_neg; exact ⟨hn, hv⟩)] at h
  cases hm : mapOk (fun id => getDependency id byName) value.dependencies with
  | error e2 =>
    rw [hm] at h
    simp only [Except.error.injEq] at h
    obtain ⟨id, hid, he⟩ := mapOk_eq_error _ _ _ hm
    exact ⟨id, hid, by rw [he, h]⟩
  | ok ds => rw [hm] at h; simp at h

/-- A successful hydratePackage keeps the validated fields and hydrates the
ids in order. -/
theorem hydratePackage_eq_ok (byName : DependencyByName) (sk : PackageSkeleton)
    (r : Registration) (h : hydratePackage byName sk = .ok r) :
    r.id = sk.id ∧ r.name = sk.name ∧ r.version = sk.version ∧ r.source = sk.source ∧
      List.Forall₂ (fun id d => getDependency id byName = .ok d)
        sk.dependencies r.dependencies := by
  unfold hydratePackage at h
  cases hm : mapOk (fun id => getDependency id byName) sk.dependencies with
  | error e => rw [hm] at h; simp at h
  | ok ds =>
    rw [hm] at h
    simp only [Except.ok.injEq] at h
    rw [← h]
    exact ⟨rfl, rfl, rfl, rfl, mapOk_eq_ok _ _ _ hm⟩

/-- A failing hydratePackage fails on the hydration of one of its ids. -/
theorem hydratePackage_eq_error (byName : DependencyByName) (sk : PackageSkeleton)
    (e : LockError) (h : hydratePackage byName sk = .error e) :
    ∃ id ∈ sk.dependencies, getDependency id byName = .error e := by
  unfold hydratePackage at h
  cases hm : mapOk (fun id => getDependency id byName) sk.dependencies with
  | error e2 =>
    rw [hm] at h
    simp only [Except.error.injEq] at h
    obtain ⟨id, hid, he⟩ := mapOk_eq_error _ _ _ hm
    exact ⟨id, hid, by rw [he, h]⟩
  | ok ds => rw [hm] at h; simp at h

/-- Claim C4: hydration resolves every dependency-id string of every package
and of the root and member snapshots by looking up only the name before the
first space of the id in the pass-1 map; the suffix of the id never
influences the resolved value, and an id whose name is unmapped fails the
whole load with the package-not-found error. -/
theorem fromToml_hydration_by_name (parsed : LockfileToml) (rootToml : SnapshotToml)
    (skeletons : List PackageSkeleton)
    (hroot : parsed.root = some rootToml)
    (hskel : mapOk loadPackage parsed.packages = .ok skeletons)
    (hname : rootToml.name ≠ "" ∧ rootToml.version ≠ "")
    (hmem : ∀ m ∈ parsed.members, m.name ≠ "" ∧ m.version ≠ "") :
    (∀ id id2 (byName : DependencyByName), firstWord id = firstWord id2 →
      ∀ d, getDependency id byName = .ok d ↔ getDependency id2 byName = .ok d) ∧
    (∀ lockfile, fromToml parsed = .ok lockfile →
      List.Forall₂ (fun id d => mapGet (buildByName skeletons) (firstWord id) = some d)
        rootToml.dependencies lockfile.workspace.root.dependencies ∧
      List.Forall₂ (fun (m : SnapshotToml) (s : Snapshot) =>
          List.Forall₂ (fun id d => mapGet (buildByName skeletons) (firstWord id) = some d)
            m.dependencies s.dependencies)
        parsed.members lockfile.workspace.members ∧
      List.Forall₂ (fun (sk : PackageSkeleton) (r : Registration) =>
          List.Forall₂ (fun id d => mapGet (buildByName skeletons) (firstWord id) = some d)
            sk.dependencies r.dependencies)
        skeletons lockfile.packages) ∧
    (∀ e, fromToml parsed = .error e →
      ∃ id, e = .packageNotFound id ∧
        mapGet (buildByName skeletons) (firstWord id) = none) := by
  have hunfold : fromToml parsed =
      match mapOk (hydratePackage (buildByName skeletons)) skeletons with
      | .error e => .error e
      | .ok packages =>
        match toManifest rootToml (buildByName skeletons) with
        | .error e => .error e
        | .ok root =>
          match mapOk (fun m => toManifest m (buildByName skeletons)) parsed.members with
          | .error e => .error e
          | .ok members =>
            .ok { workspace := { root := root, members := members }, packages := packages } := by
    unfold fromToml
    rw [hroot, hskel]
  refine ⟨?_, ?_, ?_⟩
  · intro id id2 byName hfw d
    rw [getDependency_eq_ok, getDependency_eq_ok, hfw]
  · intro lockfile h
    rw [hunfold] at h
    cases hp : mapOk (hydratePackage (buildByName skeletons)) skeletons with
    | error e => rw [hp] at h; simp at h
    | ok packages =>
      rw [hp] at h
      cases hr : toManifest rootToml (buildByName skeletons) with
      | error e => rw [hr] at h; simp at h
      | ok root =>
        rw [hr] at h
        cases hm2 : mapOk (fun m => toManifest m (buildByName skeletons)) parsed.members with
        | error e => rw [hm2] at h; simp at h
        | ok members =>
          rw [hm2] at h
          simp only [Except.ok.injEq] at h
          rw [← h]
          refine ⟨?_, ?_, ?_⟩
          · exact (toManifest_eq_ok _ _ _ hr).2.2.2.2.imp
              fun id d hd => (getDependency_eq_ok _ _ _).mp hd
          · exact (mapOk_eq_ok _ _ _ hm2).imp fun m s hs =>
              (toManifest_eq_ok _ _ _ hs).2.2.2.2.imp
                fun id d hd => (getDependency_eq_ok _ _ _).mp hd
          · exact (mapOk_eq_ok _ _ _ hp).imp fun sk r hsk =>
              (hydratePackage_eq_ok _ _ _ hsk).2.2.2.2.imp
                fun id d hd => (getDependency_eq_ok _ _ _).mp hd
  · intro e h
    rw [hunfold] at h
    cases hp : mapOk (hydratePackage (buildByName skeletons)) skeletons with
    | error e2 =>
      rw [hp] at h
      simp only [Except.error.injEq] at h
      obtain ⟨sk, _, hsk⟩ := mapOk_eq_error _ _ _ hp
      obtain ⟨id, _, hid⟩ := hydratePackage_eq_error _ _ _ hsk
      obtain ⟨he, hnone⟩ := (getDependency_eq_error _ _ _).mp hid
      exact ⟨id, by rw [← h, he], hnone⟩
    | ok packages =>
      rw [hp] at h
      cases hr : toManifest rootToml (buildByName skeletons) with
      | error e2 =>
        rw [hr] at h
        simp only [Except.error.injEq] at h
        obtain ⟨id, _, hid⟩ := toManifest_eq_error _ _ _ hname.1 hname.2 hr
        obtain ⟨he, hnone⟩ := (getDependency_eq_error _ _ _).mp hid
        exact ⟨id, by rw [← h, he], hnone⟩
      | ok root =>
        rw [hr] at h
        cases hm2 : mapOk (fun m => toManifest m (buildByName skeletons)) parsed.members with
        | error e2 =>
          rw [hm2] at h
          simp only [Except.error.injEq] at h
          obtain ⟨m, hmm, hm3⟩ := mapOk_eq_error _ _ _ hm2
          obtain ⟨id, _, hid⟩ :=
            toManifest_eq_error _ _ _ (hmem m hmm).1 (hmem m hmm).2 hm3
          obtain ⟨he, hnone⟩ := (getDependency_eq_error _ _ _).mp hid
          exact ⟨id, by rw [← h, he], hnone⟩
        | ok members => rw [hm2] at h; simp at h

/-- Witness for claim C4: a root dependency id whose name prefix is not a
listed package fails the load with the package-not-found error. -/
theorem fromToml_hydration_by_name_witness :
    ((⟨some ⟨"r", "1.0.0", ["ghost 1.0.0 registry+x#c"]⟩, [],
        [⟨"a", "1.0.0", "s", []⟩]⟩ : LockfileToml).root =
      some ⟨"r", "1.0.0", ["ghost 1.0.0 registry+x#c"]⟩) ∧
      (∃ id, (LockError.packageNotFound "ghost 1.0.0 registry+x#c" : LockError) =
          .packageNotFound id ∧
        mapGet (buildByName [⟨"a@1.0.0", "a", "1.0.0", "s", []⟩]) (firstWord id) = none) :=
  ⟨rfl,
    (fromToml_hydration_by_name
        ⟨some ⟨"r", "1.0.0", ["ghost 1.0.0 registry+x#c"]⟩, [], [⟨"a", "1.0.0", "s", []⟩]⟩
        ⟨"r", "1.0.0", ["ghost 1.0.0 registry+x#c"]⟩
        [⟨"a@1.0.0", "a", "1.0.0", "s", []⟩]
        rfl (by decide) (by decide) (by decide)).2.2
      (LockError.packageNotFound "ghost 1.0.0 registry+x#c") (by decide)⟩

/-- takeWhile over a list whose prefix satisfies the predicate, stopped by a
failing element, returns exactly that prefix. -/
theorem takeWhile_prefix_stop {p : Char → Bool} :
    ∀ (l : List Char), (∀ c ∈ l, p c = true) → ∀ (x : Char) (r : List Char), p x = false →
      (l ++ x :: r).takeWhile p = l := by
  intro l
  induction l with
  | nil =>
    intro _ x r hx
    simp [List.takeWhile_cons, hx]
  | cons c cs ih =>
    intro h x r hx
    have hc : p c = true := h c (List.mem_cons_self _ _)
    simp [List.takeWhile_cons, hc,
      ih (fun d hd => h d (List.mem_cons_of_mem _ hd)) x r hx]

/-- The first word of a spaceless name followed by a space and anything is
that name. -/
theorem firstWord_prefix (n rest : String) (h : noSpace n = true) :
    firstWord (n ++ " " ++ rest) = n := by
  unfold firstWord
  have hd : (n ++ " " ++ rest).data = n.data ++ ' ' :: rest.data := by
    rw [String.data_append, String.data_append]
    simp
  rw [hd]
  rw [takeWhile_prefix_stop n.data (List.all_eq_true.mp h) ' ' rest.data rfl]

/-- A unique match returned by getRegistration is in the graph and carries
the dependency name. -/
theorem getRegistration_eq_some (packages : DependencyGraph) (d : Dependency)
    (r : Registration) (h : getRegistration packages d = some r) :
    r ∈ packages ∧ r.name = d.name := by
  unfold getRegistration at h
  cases hf : packages.filter (fun r =>
      r.name == d.name && satisfies d (toDependency r.name r.version r.source)) with
  | nil => rw [hf] at h; simp at h
  | cons a l =>
    cases l with
    | nil =>
      rw [hf] at h
      simp only [Option.some.injEq] at h
      have ha : a ∈ packages.filter (fun r =>
          r.name == d.name && satisfies d (toDependency r.name r.version r.source)) := by
        rw [hf]
        exact List.mem_cons_self _ _
      obtain ⟨hmem, hpred⟩ := List.mem_filter.mp ha
      rw [Bool.and_eq_true] at hpred
      rw [← h]
      exact ⟨hmem, beq_iff_eq.mp hpred.1⟩
    | cons b l2 => rw [hf] at h; simp at h

/-- Reading back a just-written key of the hydration map. -/
theorem mapGet_mapSet (m : DependencyByName) (k : String) (v : Dependency) (n : String) :
    mapGet (mapSet m k v) n = if k == n then some v else mapGet m n := by
  unfold mapGet mapSet
  rw [List.foldl_append]
  rfl

/-- Every entry of the pass-1 map fold comes from the accumulator or from a
skeleton. -/
theorem buildByName_fold_mem :
    ∀ (sks : List PackageSkeleton) (m : DependencyByName) (p : String × Dependency),
      p ∈ sks.foldl
        (fun m r => mapSet m r.name (toDependency r.name r.version r.source)) m →
      p ∈ m ∨ ∃ sk ∈ sks, p = (sk.name, toDependency sk.name sk.version sk.source) := by
  intro sks
  induction sks with
  | nil => exact fun m p hp => Or.inl hp
  | cons r rs ih =>
    intro m p hp
    rw [List.foldl_cons] at hp
    rcases ih _ p hp with h1 | ⟨sk, hsk, hpeq⟩
    · unfold mapSet at h1
      rcases List.mem_append.mp h1 with h2 | h2
      · exact Or.inl h2
      · refine Or.inr ⟨r, List.mem_cons_self _ _, ?_⟩
        simpa using h2
    · exact Or.inr ⟨sk, List.mem_cons_of_mem _ hsk, hpeq⟩

/-- Every Dependency stored in the pass-1 map bears its key as name. -/
theorem buildByName_name_inv (sks : List PackageSkeleton) :
    ∀ p ∈ buildByName sks, (p.2).name = p.1 := by
  intro p hp
  rcases buildByName_fold_mem sks [] p hp with h1 | ⟨sk, _, hpeq⟩
  · simp at h1
  · rw [hpeq]
    rfl

/-- A value found in the pass-1 map bears the looked-up name. -/
theorem mapGet_eq_some_name (m : DependencyByName)
    (hm : ∀ p ∈ m, (p.2).name = p.1) (n : String) (d : Dependency)
    (h : mapGet m n = some d) : d.name = n := by
  rcases foldl_lookup_eq_some (fun p : String × Dependency => p.1)
      (fun p : String × Dependency => p.2) n d m none h with h1 | ⟨p, hp, hk, hv⟩
  · simp at h1
  · rw [← hv, hm p hp, hk]

/-- The pass-1 map holds a value for every name a skeleton carries. -/
theorem mapGet_fold_isSome (n : String) :
    ∀ (sks : List PackageSkeleton) (m : DependencyByName),
      ((∃ sk ∈ sks, sk.name = n) ∨ (mapGet m n).isSome = true) →
      (mapGet (sks.foldl
        (fun m r => mapSet m r.name (toDependency r.name r.version r.source)) m) n).isSome =
        true := by
  intro sks
  induction sks with
  | nil =>
    intro m h
    rcases h with ⟨sk, hsk, _⟩ | h2
    · simp at hsk
    · exact h2
  | cons r rs ih =>
    intro m h
    rw [List.foldl_cons]
    apply ih
    rcases h with ⟨sk, hsk, hskn⟩ | h2
    · rcases List.mem_cons.mp hsk with h3 | h3
      · refine Or.inr ?_
        rw [mapGet_mapSet]
        rw [if_pos (beq_iff_eq.mpr (by rw [← h3]; exact hskn))]
        rfl
      · exact Or.inl ⟨sk, h3, hskn⟩
    · refine Or.inr ?_
      rw [mapGet_mapSet]
      by_cases hk : (r.name == n) = true
      · rw [if_pos hk]; rfl
      · rw [if_neg hk]; exact h2

/-- For every name of a skeleton the pass-1 map yields a dependency of that
name. -/
theorem byName_total (sks : List PackageSkeleton) (n : String)
    (h : ∃ sk ∈ sks, sk.name = n) :
    ∃ dep, mapGet (buildByName sks) n = some dep ∧ dep.name = n := by
  have h1 : (mapGet (buildByName sks) n).isSome = true :=
    mapGet_fold_isSome n sks [] (Or.inl h)
  obtain ⟨dep, hdep⟩ := Option.isSome_iff_exists.mp h1
  exact ⟨dep, hdep, mapGet_eq_some_name _ (buildByName_name_inv sks) n dep hdep⟩

/-- Every dependency list whose members all resolve in the graph serializes
to a list of id strings. -/
theorem serializeIds_exist (packages : DependencyGraph) (deps : List Dependency)
    (hok : ∀ d ∈ deps, (getRegistration packages d).isSome = true) :
    ∃ ids, mapOk (fun d => toDependencyId d packages) deps = .ok ids := by
  apply mapOk_exists_ok
  intro d hd
  obtain ⟨reg, hreg⟩ := Option.isSome_iff_exists.mp (hok d hd)
  refine ⟨d.name ++ " " ++ reg.version ++ " " ++ reg.source, ?_⟩
  unfold toDependencyId
  rw [hreg]

/-- Hydrating the serialized ids of a dependency list succeeds and preserves
the dependency names, provided graph names are spaceless and the map covers
every graph name. -/
theorem hydrateIds (packages : DependencyGraph) (byName : DependencyByName)
    (hp : ∀ r ∈ packages, noSpace r.name = true)
    (hb : ∀ n, (∃ r ∈ packages, r.name = n) →
      ∃ dep, mapGet byName n = some dep ∧ dep.name = n) :
    ∀ (deps : List Dependency) (ids : List String),
      mapOk (fun d => toDependencyId d packages) deps = .ok ids →
      ∃ deps2, mapOk (fun id => getDependency id byName) ids = .ok deps2 ∧
        deps2.map Dependency.name = deps.map Dependency.name := by
  intro deps
  induction deps with
  | nil =>
    intro ids h
    simp only [mapOk, Except.ok.injEq] at h
    rw [← h]
    exact ⟨[], rfl, rfl⟩
  | cons d ds ih =>
    intro ids h
    simp only [mapOk] at h
    cases hd : toDependencyId d packages with
    | error e => rw [hd] at h; simp at h
    | ok id =>
      rw [hd] at h
      cases hds : mapOk (fun d => toDependencyId d packages) ds with
      | error e => rw [hds] at h; simp at h
      | ok ids2 =>
        rw [hds] at h
        simp only [Except.ok.injEq] at h
        unfold toDependencyId at hd
        cases hreg : getRegistration packages d with
        | none => rw [hreg] at hd; simp at hd
        | some reg =>
          rw [hreg] at hd
          simp only [Except.ok.injEq] at hd
          obtain ⟨hregmem, hregname⟩ := getRegistration_eq_some _ _ _ hreg
          have hns : noSpace d.name = true := by
            rw [← hregname]
            exact hp reg hregmem
          have hfw : firstWord id = d.name := by
            rw [← hd]
            have hassoc : d.name ++ " " ++ reg.version ++ " " ++ reg.source =
                d.name ++ " " ++ (reg.version ++ " " ++ reg.source) := by
              simp [String.append_assoc]
            rw [hassoc, firstWord_prefix _ _ hns]
          obtain ⟨dep2, hdep2, hdep2name⟩ := hb d.name ⟨reg, hregmem, hregname⟩
          have hget : getDependency id byName = .ok dep2 := by
            rw [getDependency_eq_ok, hfw]
            exact hdep2
          obtain ⟨deps2, hdeps2, hnames⟩ := ih ids2 hds
          refine ⟨dep2 :: deps2, ?_, ?_⟩
          · rw [← h]
            simp only [mapOk, hget, hdeps2]
          · rw [List.map_cons, List.map_cons, hnames, hdep2name]

/-- A snapshot with resolvable dependencies and truthy fields serializes and
hydrates back to a snapshot with the same name, version and dependency
names. -/
theorem snapshot_roundtrip (packages : DependencyGraph) (byName : DependencyByName)
    (hp : ∀ r ∈ packages, noSpace r.name = true)
    (hb : ∀ n, (∃ r ∈ packages, r.name = n) →
      ∃ dep, mapGet byName n = some dep ∧ dep.name = n)
    (s : Snapshot)
    (hok : ∀ d ∈ s.dependencies, (getRegistration packages d).isSome = true)
    (hnm : s.name ≠ "") (hv : s.version ≠ "") :
    ∃ toml s2, prepareManifest s packages = .ok toml ∧ toManifest toml byName = .ok s2 ∧
      s2.name = s.name ∧ s2.version = s.version ∧
      s2.dependencies.map Dependency.name = s.dependencies.map Dependency.name := by
  obtain ⟨ids, hids⟩ := serializeIds_exist packages s.dependencies hok
  obtain ⟨deps2, hdeps2, hnames⟩ := hydrateIds packages byName hp hb s.dependencies ids hids
  refine ⟨⟨s.name, s.version, ids⟩, ⟨s.name, s.version, deps2⟩, ?_, ?_, rfl, rfl, ?_⟩
  · unfold prepareManifest
    rw [hids]
  · unfold toManifest
    rw [if_neg (by push_neg; exact ⟨hnm, hv⟩), hdeps2]
  · exact hnames

/-- Serializing and re-hydrating a member list preserves names, versions and
dependency-name lists. -/
theorem members_roundtrip (packages : DependencyGraph) (byName : DependencyByName)
    (hp : ∀ r ∈ packages, noSpace r.name = true)
    (hb : ∀ n, (∃ r ∈ packages, r.name = n) →
      ∃ dep, mapGet byName n = some dep ∧ dep.name = n) :
    ∀ (ms : List Snapshot),
      (∀ m ∈ ms, (∀ d ∈ m.dependencies, (getRegistration packages d).isSome = true) ∧
        m.name ≠ "" ∧ m.version ≠ "") →
      ∃ tomls members2,
        mapOk (fun m => prepareManifest m packages) ms = .ok tomls ∧
        mapOk (fun m => toManifest m byName) tomls = .ok members2 ∧
        members2.map Snapshot.name = ms.map Snapshot.name ∧
        members2.map Snapshot.version = ms.map Snapshot.version ∧
        members2.map (fun m => m.dependencies.map Dependency.name) =
          ms.map (fun m => m.dependencies.map Dependency.name) := by
  intro ms
  induction ms with
  | nil => exact fun _ => ⟨[], [], rfl, rfl, rfl, rfl, rfl⟩
  | cons m ms ih =>
    intro h
    obtain ⟨hok, hnm, hv⟩ := h m (List.mem_cons_self _ _)
    obtain ⟨toml, s2, hprep, htm, hn2, hv2, hd2⟩ :=
      snapshot_roundtrip packages byName hp hb m hok hnm hv
    obtain ⟨tomls, members2, hpreps, htms, hns, hvs, hds⟩ :=
      ih fun m2 hm2 => h m2 (List.mem_cons_of_mem _ hm2)
    refine ⟨toml :: tomls, s2 :: members2, ?_, ?_, ?_, ?_, ?_⟩
    · simp only [mapOk, hprep, hpreps]
    · simp only [mapOk, htm, htms]
    · rw [List.map_cons, List.map_cons, hns, hn2]
    · rw [List.map_cons, List.map_cons, hvs, hv2]
    · rw [List.map_cons, List.map_cons, hds, hd2]

/-- Pass 0 and pass 1 over the package list: flattening every registration
to its persisted entry and loading it back as a skeleton succeeds and
preserves names, versions, sources and the serialized dependency ids. -/
theorem packages_prepare_load (packages : DependencyGraph)
    (hpkg : ∀ r ∈ packages, r.name ≠ "" ∧ noSpace r.name = true ∧ r.version ≠ "" ∧
      r.source ≠ "")
    (hok : ∀ r ∈ packages, ∀ d ∈ r.dependencies,
      (getRegistration packages d).isSome = true) :
    ∀ (regs : List Registration), (∀ r ∈ regs, r ∈ packages) →
      ∃ (pkgTomls : List PackageToml) (skeletons : List PackageSkeleton),
        mapOk (preparePackage packages) regs = .ok pkgTomls ∧
        mapOk loadPackage pkgTomls = .ok skeletons ∧
        skeletons.map PackageSkeleton.name = regs.map Registration.name ∧
        List.Forall₂ (fun (r : Registration) (sk : PackageSkeleton) =>
          sk.name = r.name ∧ sk.version = r.version ∧ sk.source = r.source ∧
          mapOk (fun d => toDependencyId d packages) r.dependencies = .ok sk.dependencies)
          regs skeletons := by
  intro regs
  induction regs with
  | nil => exact fun _ => ⟨[], [], rfl, rfl, rfl, List.Forall₂.nil⟩
  | cons r rs ih =>
    intro hsub
    have hrmem : r ∈ packages := hsub r (List.mem_cons_self _ _)
    obtain ⟨hne, _, hve, hse⟩ := hpkg r hrmem
    obtain ⟨ids, hids⟩ := serializeIds_exist packages r.dependencies (hok r hrmem)
    obtain ⟨pkgTomls, skeletons, hpreps, hloads, hns, hrel⟩ :=
      ih fun r2 hr2 => hsub r2 (List.mem_cons_of_mem _ hr2)
    have hprep : preparePackage packages r =
        .ok ⟨r.name, r.version, r.source, ids⟩ := by
      unfold preparePackage
      rw [hids]
    have hload : loadPackage ⟨r.name, r.version, r.source, ids⟩ =
        .ok ⟨getRegistrationId r.name r.version, r.name, r.version, r.source, ids⟩ := by
      unfold loadPackage
      rw [if_neg (by push_neg; exact ⟨hne, hve, hse⟩)]
    refine ⟨⟨r.name, r.version, r.source, ids⟩ :: pkgTomls,
      ⟨getRegistrationId r.name r.version, r.name, r.version, r.source, ids⟩ :: skeletons,
      ?_, ?_, ?_, ?_⟩
    · simp only [mapOk, hprep, hpreps]
    · simp only [mapOk, hload, hloads]
    · rw [List.map_cons, List.map_cons, hns]
    · exact List.Forall₂.cons ⟨rfl, rfl, rfl, hids⟩ hrel

/-- Pass 2 over the skeletons: hydration succeeds and preserves names,
versions and dependency-name lists of the original registrations. -/
theorem packages_hydrate (packages : DependencyGraph) (byName : DependencyByName)
    (hp : ∀ r ∈ packages, noSpace r.name = true)
    (hb : ∀ n, (∃ r ∈ packages, r.name = n) →
      ∃ dep, mapGet byName n = some dep ∧ dep.name = n) :
    ∀ {regs : List Registration} {skeletons : List PackageSkeleton},
      List.Forall₂ (fun (r : Registration) (sk : PackageSkeleton) =>
        sk.name = r.name ∧ sk.version = r.version ∧ sk.source = r.source ∧
        mapOk (fun d => toDependencyId d packages) r.dependencies = .ok sk.dependencies)
        regs skeletons →
      ∃ packages2,
        mapOk (hydratePackage byName) skeletons = .ok packages2 ∧
        packages2.map Registration.name = regs.map Registration.name ∧
        packages2.map Registration.version = regs.map Registration.version ∧
        packages2.map (fun r => r.dependencies.map Dependency.name) =
          regs.map (fun r => r.dependencies.map Dependency.name) := by
  intro regs skeletons h
  induction h with
  | nil => exact ⟨[], rfl, rfl, rfl, rfl⟩
  | cons hrel hrest ih =>
    rename_i r sk rs sks
    obtain ⟨hskn, hskv, hsks, hskids⟩ := hrel
    obtain ⟨deps2, hdeps2, hnames⟩ :=
      hydrateIds packages byName hp hb r.dependencies sk.dependencies hskids
    have hhyd : hydratePackage byName sk =
        .ok ⟨sk.id, sk.name, sk.version, sk.source, deps2⟩ := by
      unfold hydratePackage
      rw [hdeps2]
    obtain ⟨packages2, hhyds, hns, hvs, hds⟩ := ih
    refine ⟨⟨sk.id, sk.name, sk.version, sk.source, deps2⟩ :: packages2, ?_, ?_, ?_, ?_⟩
    · simp only [mapOk, hhyd, hhyds]
    · rw [List.map_cons, List.map_cons, hns]
      show sk.name :: _ = r.name :: _
      rw [hskn]
    · rw [List.map_cons, List.map_cons, hvs]
      show sk.version :: _ = r.version :: _
      rw [hskv]
    · rw [List.map_cons, List.map_cons, hds]
      show deps2.map Dependency.name :: _ = r.dependencies.map Dependency.name :: _
      rw [hnames]

/-- Claim C1: the round-trip property as the spec states it fails on a
complete graph whose package name contains a space: the serialized id of the
root dependency is the name, a space, the version and the source, and the
hydration pass resolves only the substring before the first space, so the
load fails with a package-not-found error instead of yielding a lockfile. -/
theorem lockfile_roundtrip_counterexample :
    completeGraph ⟨⟨⟨"root", "1.0.0", [⟨"a b", "1.0.0", "registry+x#c"⟩]⟩, []⟩,
        [⟨"a b@1.0.0", "a b", "1.0.0", "registry+x#c", []⟩]⟩ = true ∧
      toToml ⟨⟨⟨"root", "1.0.0", [⟨"a b", "1.0.0", "registry+x#c"⟩]⟩, []⟩,
          [⟨"a b@1.0.0", "a b", "1.0.0", "registry+x#c", []⟩]⟩ =
        .ok ⟨some ⟨"root", "1.0.0", ["a b 1.0.0 registry+x#c"]⟩, [],
          [⟨"a b", "1.0.0", "registry+x#c", []⟩]⟩ ∧
      fromToml ⟨some ⟨"root", "1.0.0", ["a b 1.0.0 registry+x#c"]⟩, [],
          [⟨"a b", "1.0.0", "registry+x#c", []⟩]⟩ =
        .error (.packageNotFound "a b 1.0.0 registry+x#c") := by
  refine ⟨by decide, by decide, by decide⟩

/-- Claim C1 (amended): for a lockfile with a complete graph whose package
names are nonempty and contain no space and whose root, member and package
name, version and source fields are truthy, deserializing the serialized
value yields a lockfile with the same root name and version, the same member
names and versions, the same package names and versions, and the same
dependency-name lists for the root, for each member and for each package.
The external TOML codec is modelled as the identity on the structured value
it encodes and parses. -/
theorem lockfile_roundtrip (L : Lockfile)
    (hcomplete : completeGraph L = true)
    (hpkg : ∀ r ∈ L.packages, r.name ≠ "" ∧ noSpace r.name = true ∧ r.version ≠ "" ∧
      r.source ≠ "")
    (hroot : L.workspace.root.name ≠ "" ∧ L.workspace.root.version ≠ "")
    (hmem : ∀ m ∈ L.workspace.members, m.name ≠ "" ∧ m.version ≠ "") :
    ∃ toml lockfile2,
      toToml L = .ok toml ∧
      fromToml toml = .ok lockfile2 ∧
      lockfile2.workspace.root.name = L.workspace.root.name ∧
      lockfile2.workspace.root.version = L.workspace.root.version ∧
      lockfile2.workspace.members.map Snapshot.name =
        L.workspace.members.map Snapshot.name ∧
      lockfile2.workspace.members.map Snapshot.version =
        L.workspace.members.map Snapshot.version ∧
      lockfile2.packages.map Registration.name = L.packages.map Registration.name ∧
      lockfile2.packages.map Registration.version = L.packages.map Registration.version ∧
      lockfile2.workspace.root.dependencies.map Dependency.name =
        L.workspace.root.dependencies.map Dependency.name ∧
      lockfile2.workspace.members.map (fun m => m.dependencies.map Dependency.name) =
        L.workspace.members.map (fun m => m.dependencies.map Dependency.name) ∧
      lockfile2.packages.map (fun r => r.dependencies.map Dependency.name) =
        L.packages.map (fun r => r.dependencies.map Dependency.name) := by
  have hcg := hcomplete
  simp only [completeGraph, Bool.and_eq_true, List.all_eq_true] at hcg
  obtain ⟨⟨h1, h2⟩, h3⟩ := hcg
  obtain ⟨pkgTomls, skeletons, hpreps, hloads, hnameseq, hrel⟩ :=
    packages_prepare_load L.packages hpkg h3 L.packages (fun r hr => hr)
  have hb : ∀ n, (∃ r ∈ L.packages, r.name = n) →
      ∃ dep, mapGet (buildByName skeletons) n = some dep ∧ dep.name = n := by
    rintro n ⟨r, hr, hrn⟩
    apply byName_total
    have hmemname : n ∈ skeletons.map PackageSkeleton.name := by
      rw [hnameseq]
      exact List.mem_map.mpr ⟨r, hr, hrn⟩
    obtain ⟨sk, hsk, hskn⟩ := List.mem_map.mp hmemname
    exact ⟨sk, hsk, hskn⟩
  have hpns : ∀ r ∈ L.packages, noSpace r.name = true := fun r hr => (hpkg r hr).2.1
  obtain ⟨rootToml, root2, hrootprep, hroottm, hrn, hrv, hrd⟩ :=
    snapshot_roundtrip L.packages (buildByName skeletons) hpns hb L.workspace.root h1
      hroot.1 hroot.2
  obtain ⟨memberTomls, members2, hmemprep, hmemtm, hmn, hmv, hmd⟩ :=
    members_roundtrip L.packages (buildByName skeletons) hpns hb L.workspace.members
      (fun m hm => ⟨h2 m hm, (hmem m hm).1, (hmem m hm).2⟩)
  obtain ⟨packages2, hhyds, hpn, hpv, hpd⟩ :=
    packages_hydrate L.packages (buildByName skeletons) hpns hb hrel
  refine ⟨⟨some rootToml, memberTomls, pkgTomls⟩, ⟨⟨root2, members2⟩, packages2⟩,
    ?_, ?_, hrn, hrv, hmn, hmv, hpn, hpv, hrd, hmd, hpd⟩
  · unfold toToml
    rw [hrootprep, hmemprep, hpreps]
  · simp only [fromToml, hloads, hhyds, hroottm, hmemtm]

/-- Witness for the amended claim C1 at a concrete one-package lockfile. -/
theorem lockfile_roundtrip_witness :
    completeGraph ⟨⟨⟨"root", "1.0.0", [⟨"a", "1.0.0", "registry+x#c"⟩]⟩, []⟩,
        [⟨"a@1.0.0", "a", "1.0.0", "registry+x#c", []⟩]⟩ = true ∧
      ∃ toml lockfile2,
        toToml ⟨⟨⟨"root", "1.0.0", [⟨"a", "1.0.0", "registry+x#c"⟩]⟩, []⟩,
            [⟨"a@1.0.0", "a", "1.0.0", "registry+x#c", []⟩]⟩ = .ok toml ∧
        fromToml toml = .ok lockfile2 ∧
        lockfile2.workspace.root.name = "root" ∧
        lockfile2.workspace.root.version = "1.0.0" ∧
        lockfile2.workspace.members.map Snapshot.name = [] ∧
        lockfile2.workspace.members.map Snapshot.version = [] ∧
        lockfile2.packages.map Registration.name = ["a"] ∧
        lockfile2.packages.map Registration.version = ["1.0.0"] ∧
        lockfile2.workspace.root.dependencies.map Dependency.name = ["a"] ∧
        lockfile2.workspace.members.map (fun m => m.dependencies.map Dependency.name) =
          [] ∧
        lockfile2.packages.map (fun r => r.dependencies.map Dependency.name) = [[]] :=
  ⟨by decide,
    lockfile_roundtrip
      ⟨⟨⟨"root", "1.0.0", [⟨"a", "1.0.0", "registry+x#c"⟩]⟩, []⟩,
        [⟨"a@1.0.0", "a", "1.0.0", "registry+x#c", []⟩]⟩
      (by decide) (by decide) (by decide) (by decide)⟩

end VbaBlocks
